import Mathlib

/-!
Shallow embedding of `src/SequenceAnalyzer.py` (class `SequenceAnalyzer`).

Modelling decisions, in correspondence with the source:
* A pandas `DataFrame` is a list of column labels plus a list of rows,
  each row a list of cell values.  A cell (`Val`) is either a numeric
  intensity (modelled as `Rat`, exact real-number semantics for Python
  floats) or a base symbol (string), since the table mixes a textual
  reference column with numeric signal columns.
* `row[start:end]` on a pandas Series with string labels is positional
  slicing with clamping: `(row.take e).drop s`.
* `pd.unique(row)` returns the distinct values, so
  `len(pd.unique(row)) == 1` is `row.dedup.length == 1` (`no_max`).
* `Series.idxmax` returns the label of the first occurrence of the
  maximal value; on a slice containing a non-numeric cell the comparison
  raises `TypeError` and on an empty slice it raises `ValueError`, both
  modelled as `none`.
* Failure (a Python exception propagating to the caller) is `none` /
  `Except.error`; `calculate_error` distinguishes the `IndexError` from
  a short basecall list and the `ZeroDivisionError` from an empty
  reference, in the order Python would raise them.
* The methods mutate instance fields (`self.basecall = []` then
  repeated `append`); the stateful versions thread a `SequenceAnalyzer`
  record and record the partially built list if an exception escapes
  mid-loop.
-/

inductive Val where
  | num (q : Rat)
  | sym (s : String)
deriving DecidableEq, Repr

structure DataFrame where
  cols : List String
  rows : List (List Val)
deriving Repr

/-- Analyzer state: `__init__` sets `path`, `reference = []`, `basecall = []`. -/
structure SequenceAnalyzer where
  path : String
  reference : List Val
  basecall : List String
deriving Repr

/-- `SequenceAnalyzer.__init__`. -/
def SequenceAnalyzer.init (path : String) : SequenceAnalyzer :=
  { path := path, reference := [], basecall := [] }

/-- `no_max(row)`: `len(pd.unique(row)) == 1`. -/
def no_max {α : Type} [DecidableEq α] (row : List α) : Bool :=
  row.dedup.length == 1

/-- Positional slice `row[s:e]` (Python slicing clamps out-of-range bounds). -/
def pySlice {α : Type} (s e : Nat) (row : List α) : List α :=
  (row.take e).drop s

def asNum : Val → Option Rat
  | Val.num q => some q
  | Val.sym _ => none

/-- Fold step of `Series.idxmax`: keep the current best, replace only on a
strictly larger value, so the first occurrence of the maximum wins. -/
def idxmax_go (best : String × Rat) : List (String × Rat) → String × Rat
  | [] => best
  | q :: qs => idxmax_go (if best.2 < q.2 then q else best) qs

/-- `Series.idxmax` on label/value pairs: label of the first maximal value;
`none` on the empty series (pandas raises `ValueError`). -/
def idxmax : List (String × Rat) → Option String
  | [] => none
  | p :: ps => some (idxmax_go p ps).1

/-- One iteration of the loop in `basecall_sequence`: slice the row, emit
`"N"` if `no_max`, otherwise `idxmax` over the slice (labels paired with
values).  A non-numeric cell in a non-flat slice makes the pandas
comparison raise `TypeError`, modelled as `none`. -/
def basecall_row (cols : List String) (s e : Nat) (row : List Val) : Option String :=
  let vals := pySlice s e row
  if no_max vals then some "N"
  else
    match vals.mapM asNum with
    | none => none
    | some qs => idxmax ((pySlice s e cols).zip qs)

/-- The `for index, row in df.iterrows()` loop of `basecall_sequence`,
threading the accumulated `self.basecall` list; on an exception the
partially built list is what remains in the field. -/
def basecall_loop (cols : List String) (s e : Nat) :
    List (List Val) → List String → Option (List String) × List String
  | [], acc => (some acc, acc)
  | r :: rs, acc =>
    match basecall_row cols s e r with
    | some b => basecall_loop cols s e rs (acc ++ [b])
    | none => (none, acc)

/-- `basecall_sequence(self, df, start_column, end_column)` as a state
transformer: resets `self.basecall` to `[]`, loops over the rows, and
returns the list (or the exception) together with the updated state. -/
def SequenceAnalyzer.basecall_sequence (st : SequenceAnalyzer) (df : DataFrame)
    (start_column end_column : Nat) : Option (List String) × SequenceAnalyzer :=
  let out := basecall_loop df.cols start_column end_column df.rows []
  (out.1, { st with basecall := out.2 })

/-- The value returned by `basecall_sequence` (state-independent). -/
def basecall_sequence (df : DataFrame) (start_column end_column : Nat) :
    Option (List String) :=
  (basecall_loop df.cols start_column end_column df.rows []).1

/-- The `for index, row in df.iterrows()` loop of `reference_sequence`:
`row[reference_column]` is a positional lookup, raising if out of range. -/
def reference_loop (reference_column : Nat) :
    List (List Val) → List Val → Option (List Val) × List Val
  | [], acc => (some acc, acc)
  | r :: rs, acc =>
    match r.get? reference_column with
    | some v => reference_loop reference_column rs (acc ++ [v])
    | none => (none, acc)

/-- `reference_sequence(self, df, reference_column)` as a state transformer:
resets `self.reference` to `[]` and collects the reference column. -/
def SequenceAnalyzer.reference_sequence (st : SequenceAnalyzer) (df : DataFrame)
    (reference_column : Nat) : Option (List Val) × SequenceAnalyzer :=
  let out := reference_loop reference_column df.rows []
  (out.1, { st with reference := out.2 })

/-- The value returned by `reference_sequence` (state-independent). -/
def reference_sequence (df : DataFrame) (reference_column : Nat) :
    Option (List Val) :=
  (reference_loop reference_column df.rows []).1

/-- The matching loop of `calculate_error`: for each index of `reference`,
compare with `basecall[index]`; `none` is the `IndexError` raised when
`basecall` is shorter than `reference`. -/
def matchCount {α : Type} [DecidableEq α] : List α → List α → Option Nat
  | [], _ => some 0
  | _ :: _, [] => none
  | r :: rs, b :: bs =>
    (matchCount rs bs).map (fun c => if r = b then c + 1 else c)

/-- `calculate_error(self)` on the two sequence fields:
`abs((count - sequence_length) / sequence_length) * 100`.  The loop runs
first (possible `IndexError`), then the division (possible
`ZeroDivisionError` when `len(self.reference) == 0`). -/
def calculate_error {α : Type} [DecidableEq α] (reference basecall : List α) :
    Except String Rat :=
  match matchCount reference basecall with
  | none => Except.error "IndexError"
  | some count =>
    if reference.length = 0 then Except.error "ZeroDivisionError"
    else Except.ok (|((count : Rat) - reference.length) / reference.length| * 100)

/-- The fixed column positions hard-coded in `change_column_titles`:
`df.columns[[1,2,3,4,7,8,9,10]]`. -/
def renamePositions : List Nat := [1, 2, 3, 4, 7, 8, 9, 10]

/-- `df.columns[[1,2,3,4,7,8,9,10]]`: the labels at those positions.  The
fancy indexing raises `IndexError` (here `none`) exactly when some listed
position is out of bounds, i.e. when the table has fewer than 11 columns. -/
def selectPositions (cols : List String) : Option (List String) :=
  if 10 < cols.length then
    some (renamePositions.map (fun i => cols.getD i ""))
  else none

/-- Lookup in the Python dict built by `dict(zip(keys, vals))`: later
bindings of the same key overwrite earlier ones. -/
def pyDictLookup (assoc : List (String × String)) (k : String) : Option String :=
  (assoc.reverse.find? (fun p => p.1 == k)).map (fun p => p.2)

/-- `change_column_titles(self, df, base_order)`:
`df.rename(columns=dict(zip(df.columns[[1,2,3,4,7,8,9,10]], base_order)))`.
`zip` silently truncates to the shorter operand; `rename` replaces every
column whose label is a key of the mapping and leaves the rest alone. -/
def change_column_titles (cols : List String) (base_order : List String) :
    Option (List String) :=
  (selectPositions cols).map (fun sel =>
    let mapping := sel.zip base_order
    cols.map (fun c => (pyDictLookup mapping c).getD c))

/-! ### Helper lemmas about `matchCount` and `calculate_error` -/

theorem matchCount_eq_countP {α : Type} [DecidableEq α] (r : List α) :
    ∀ b : List α, r.length = b.length →
      matchCount r b = some ((r.zip b).countP (fun p => decide (p.1 = p.2))) := by
  induction r with
  | nil => intro b _; simp [matchCount]
  | cons x xs ih =>
    intro b h
    cases b with
    | nil => simp at h
    | cons y ys =>
      simp only [List.length_cons, Nat.succ.injEq] at h
      simp only [matchCount, ih ys h, Option.map_some', List.zip_cons_cons,
        List.countP_cons, Option.some.injEq]
      by_cases hxy : x = y <;> simp [hxy, Nat.add_comm]

theorem matchCount_self {α : Type} [DecidableEq α] (s : List α) :
    matchCount s s = some s.length := by
  induction s with
  | nil => rfl
  | cons x xs ih => simp [matchCount, ih]

theorem countP_eq_add_countP_ne {α : Type} [DecidableEq α] (l : List (α × α)) :
    l.countP (fun p => decide (p.1 = p.2)) +
      l.countP (fun p => decide (p.1 ≠ p.2)) = l.length := by
  induction l with
  | nil => simp
  | cons x xs ih =>
    simp only [ne_eq, decide_not] at ih ⊢
    simp only [List.countP_cons]
    by_cases h : x.1 = x.2 <;> simp [h] <;> omega

theorem matchCount_add_mismatch {α : Type} [DecidableEq α]
    (r b : List α) (h : r.length = b.length) :
    (r.zip b).countP (fun p => decide (p.1 = p.2)) +
      (r.zip b).countP (fun p => decide (p.1 ≠ p.2)) = r.length := by
  have hlen : (r.zip b).length = r.length := by
    rw [List.length_zip, h, Nat.min_self]
  rw [countP_eq_add_countP_ne, hlen]


/-- C1: for reference and basecall sequences of the same nonzero length `n`
that differ in exactly `k` positions, `calculate_error` returns
`(k / n) * 100`. -/
theorem calculate_error_mismatch_rate {α : Type} [DecidableEq α]
    (reference basecall : List α) (n k : Nat)
    (hr : reference.length = n) (hb : basecall.length = n) (hn : n ≠ 0)
    (hk : (reference.zip basecall).countP (fun p => decide (p.1 ≠ p.2)) = k) :
    calculate_error reference basecall = Except.ok ((k : Rat) / (n : Rat) * 100) := by
  have hlen : reference.length = basecall.length := by rw [hr, hb]
  have hm := matchCount_eq_countP reference basecall hlen
  set m := (reference.zip basecall).countP (fun p => decide (p.1 = p.2)) with hmdef
  have hsum : m + k = n := by
    have h := matchCount_add_mismatch reference basecall hlen
    rw [hk] at h
    omega
  simp only [calculate_error, hm, hr]
  rw [if_neg hn]
  have hnpos : (0 : Rat) < n := by exact_mod_cast Nat.pos_of_ne_zero hn
  have hcast : ((m : Rat) - n) = -(k : Rat) := by
    have h : (m : Rat) + k = n := by exact_mod_cast hsum
    linarith
  rw [hcast, neg_div, abs_neg, abs_div, abs_of_nonneg (Nat.cast_nonneg k),
    abs_of_pos hnpos]

/-- Witness for C1 at the spec's own example: reference `A C G T`, basecall
`A C G N` (one mismatch in four positions) gives 25 percent. -/
theorem calculate_error_mismatch_rate_witness :
    calculate_error ["A", "C", "G", "T"] ["A", "C", "G", "N"] =
      Except.ok ((1 : Rat) / (4 : Rat) * 100) :=
  calculate_error_mismatch_rate ["A", "C", "G", "T"] ["A", "C", "G", "N"] 4 1
    rfl rfl (by decide) (by decide)

/-- C6: with an empty reference sequence, `calculate_error` raises rather
than producing a number (Python raises `ZeroDivisionError`, which
propagates to the caller). -/
theorem calculate_error_empty_reference {α : Type} [DecidableEq α]
    (basecall : List α) :
    calculate_error ([] : List α) basecall = Except.error "ZeroDivisionError" := rfl

/-- C8: `calculate_error` of a non-empty sequence against itself is zero. -/
theorem calculate_error_self_eq_zero {α : Type} [DecidableEq α]
    (seq : List α) (h : seq ≠ []) :
    calculate_error seq seq = Except.ok 0 := by
  have hlen : seq.length ≠ 0 := by
    simpa [List.length_eq_zero] using h
  simp [calculate_error, matchCount_self seq, hlen]

/-- Witness for C8 on a concrete non-empty sequence. -/
theorem calculate_error_self_eq_zero_witness :
    calculate_error ["A", "C"] ["A", "C"] = Except.ok 0 :=
  calculate_error_self_eq_zero ["A", "C"] (by decide)

/-- C10: for equal nonzero lengths, `calculate_error` succeeds with a value
between 0 and 100 inclusive. -/
theorem calculate_error_mem_range {α : Type} [DecidableEq α]
    (reference basecall : List α)
    (hlen : reference.length = basecall.length) (hn : reference.length ≠ 0) :
    ∃ q : Rat, calculate_error reference basecall = Except.ok q ∧
      0 ≤ q ∧ q ≤ 100 := by
  have hm := matchCount_eq_countP reference basecall hlen
  set m := (reference.zip basecall).countP (fun p => decide (p.1 = p.2)) with hmdef
  have hmle : m ≤ reference.length := by
    have h := matchCount_add_mismatch reference basecall hlen
    omega
  set n := reference.length with hndef
  refine ⟨|((m : Rat) - n) / n| * 100, ?_, ?_, ?_⟩
  · simp [calculate_error, hm, hn]
  · positivity
  · have hnpos : (0 : Rat) < n := by exact_mod_cast Nat.pos_of_ne_zero hn
    have hmn : (m : Rat) ≤ n := by exact_mod_cast hmle
    have habs : |((m : Rat) - n)| = (n : Rat) - m := by
      rw [abs_of_nonpos (by linarith)]
      ring
    rw [abs_div, habs, abs_of_pos hnpos]
    have h1 : ((n : Rat) - m) / n ≤ 1 := by
      rw [div_le_one hnpos]
      linarith
    linarith

/-- Witness for C10 on a concrete pair with one mismatch out of two. -/
theorem calculate_error_mem_range_witness :
    ∃ q : Rat, calculate_error ["A", "C"] ["C", "C"] = Except.ok q ∧
      0 ≤ q ∧ q ≤ 100 :=
  calculate_error_mem_range ["A", "C"] ["C", "C"] rfl (by decide)


/-- C9: the returned list and the written field of `basecall_sequence` and
`reference_sequence` are independent of the analyzer's prior field
contents, because both methods reset their field before the loop. -/
theorem analyzer_methods_state_independent (st1 st2 : SequenceAnalyzer)
    (df : DataFrame) (s e rc : Nat) :
    (st1.basecall_sequence df s e).1 = (st2.basecall_sequence df s e).1 ∧
    (st1.basecall_sequence df s e).2.basecall =
      (st2.basecall_sequence df s e).2.basecall ∧
    (st1.reference_sequence df rc).1 = (st2.reference_sequence df rc).1 ∧
    (st1.reference_sequence df rc).2.reference =
      (st2.reference_sequence df rc).2.reference :=
  ⟨rfl, rfl, rfl, rfl⟩

/-- C3 counterexample: on the empty row every pair of values is (vacuously)
identical, yet `no_max` returns `false`, because `pd.unique` of an empty
series has length 0, not 1. -/
theorem no_max_empty_counterexample :
    no_max ([] : List Val) = false ∧
      ∀ x ∈ ([] : List Val), ∀ y ∈ ([] : List Val), x = y :=
  ⟨rfl, by simp⟩

/-- C3 (amended to non-empty rows): on a non-empty row, `no_max` returns
`true` iff all values in the row are identical. -/
theorem no_max_iff_all_eq {α : Type} [DecidableEq α] (row : List α)
    (h : row ≠ []) :
    no_max row = true ↔ ∀ x ∈ row, ∀ y ∈ row, x = y := by
  unfold no_max
  rw [beq_iff_eq, List.length_eq_one]
  constructor
  · rintro ⟨a, ha⟩ x hx y hy
    have hxa : x = a := by
      have hx' : x ∈ row.dedup := List.mem_dedup.mpr hx
      rw [ha] at hx'
      simpa using hx'
    have hya : y = a := by
      have hy' : y ∈ row.dedup := List.mem_dedup.mpr hy
      rw [ha] at hy'
      simpa using hy'
    rw [hxa, hya]
  · intro hall
    obtain ⟨b, l, rfl⟩ := List.exists_cons_of_ne_nil h
    refine ⟨b, ?_⟩
    have hnd := (b :: l).nodup_dedup
    have hmem : ∀ x, x ∈ (b :: l).dedup ↔ x = b := by
      intro x
      rw [List.mem_dedup]
      constructor
      · intro hx
        exact hall x hx b (by simp)
      · intro hx
        rw [hx]
        simp
    cases hd : (b :: l).dedup with
    | nil =>
      have hb : b ∈ (b :: l).dedup := (hmem b).mpr rfl
      rw [hd] at hb
      simp at hb
    | cons c t =>
      have hc : c = b := (hmem c).mp (by rw [hd]; simp)
      cases t with
      | nil => rw [hc]
      | cons d t2 =>
        have hdb : d = b := (hmem d).mp (by rw [hd]; simp)
        rw [hd, hc, hdb] at hnd
        simp at hnd

/-- Witness for the amended C3 on a concrete non-empty flat row. -/
theorem no_max_iff_all_eq_witness :
    no_max [Val.num 2, Val.num 2] = true ↔
      ∀ x ∈ [Val.num 2, Val.num 2], ∀ y ∈ [Val.num 2, Val.num 2], x = y :=
  no_max_iff_all_eq [Val.num 2, Val.num 2] (by decide)

/-- C5 counterexample: three labels for the eight hard-coded positions is a
count mismatch, yet the call completes normally — `dict(zip(..))` silently
truncates, renaming only the first three selected columns. -/
theorem change_column_titles_mismatch_counterexample :
    change_column_titles
      ["ref", "c1", "c2", "c3", "c4", "x5", "ref2", "c7", "c8", "c9", "c10"]
      ["A", "C", "G"] =
      some ["ref", "A", "C", "G", "c4", "x5", "ref2", "c7", "c8", "c9", "c10"] := by
  decide

/-- C5 (amended): `change_column_titles` performs no label-count check at
all: whenever the table is wide enough for the hard-coded positions (at
least 11 columns), the call completes for every label list, mismatched or
not, returning a column list of unchanged length. -/
theorem change_column_titles_no_count_check (cols base_order : List String)
    (h : 10 < cols.length) :
    ∃ out, change_column_titles cols base_order = some out ∧
      out.length = cols.length := by
  refine ⟨cols.map (fun c =>
    (pyDictLookup ((renamePositions.map (fun i => cols.getD i "")).zip base_order)
      c).getD c), ?_, ?_⟩
  · rw [change_column_titles, selectPositions, if_pos h]
    rfl
  · simp

/-- Witness for the amended C5: a single label against eight positions
still completes. -/
theorem change_column_titles_no_count_check_witness :
    ∃ out, change_column_titles
      ["ref", "c1", "c2", "c3", "c4", "x5", "ref2", "c7", "c8", "c9", "c10"]
      ["A"] = some out ∧ out.length = 11 :=
  change_column_titles_no_count_check
    ["ref", "c1", "c2", "c3", "c4", "x5", "ref2", "c7", "c8", "c9", "c10"]
    ["A"] (by decide)


/-! ### Helper lemmas about `pyDictLookup` and column renaming -/

theorem pyDictLookup_eq_none (assoc : List (String × String)) (k : String)
    (h : ∀ p ∈ assoc, p.1 ≠ k) : pyDictLookup assoc k = none := by
  unfold pyDictLookup
  rw [List.find?_eq_none.mpr]
  · rfl
  · intro p hp
    simpa using h p (List.mem_reverse.mp hp)

theorem getD_of_lt {α : Type} (l : List α) (i : Nat) (d : α) (h : i < l.length) :
    l.getD i d = l[i] := by
  simp [List.getD_eq_getElem?_getD, List.getElem?_eq_getElem h]

theorem pyDictLookup_zip_nodup (ks : List String) :
    ∀ (vs : List String) (j : Nat), ks.Nodup → j < ks.length → j < vs.length →
      pyDictLookup (ks.zip vs) (ks.getD j "") = vs[j]? := by
  induction ks with
  | nil =>
    intro vs j _ hj _
    simp at hj
  | cons k ks' ih =>
    intro vs j hnd hj hjv
    cases vs with
    | nil => simp at hjv
    | cons v vs' =>
      have hknotin : k ∉ ks' := (List.nodup_cons.mp hnd).1
      have hfront : ∀ key, key ∉ ks' →
          ((ks'.zip vs').reverse.find? (fun p => p.1 == key)) = none := by
        intro key hkey
        rw [List.find?_eq_none]
        intro p hp
        have hp1 : p.1 ∈ ks' := by
          have := List.of_mem_zip (List.mem_reverse.mp hp)
          exact this.1
        simp only [beq_iff_eq]
        intro hcontra
        exact hkey (hcontra ▸ hp1)
      cases j with
      | zero =>
        simp only [List.getD_cons_zero]
        unfold pyDictLookup
        rw [List.zip_cons_cons, List.reverse_cons, List.find?_append,
          hfront k hknotin, Option.none_or]
        simp
      | succ j' =>
        have hj' : j' < ks'.length := by simpa using hj
        have hjv' : j' < vs'.length := by simpa using hjv
        have hih := ih vs' j' (List.nodup_cons.mp hnd).2 hj' hjv'
        simp only [List.getD_cons_succ]
        unfold pyDictLookup at hih ⊢
        rw [List.zip_cons_cons, List.reverse_cons, List.find?_append]
        obtain ⟨w, hw⟩ : ∃ w, vs'[j']? = some w :=
          ⟨vs'[j'], List.getElem?_eq_getElem hjv'⟩
        rw [hw] at hih
        obtain ⟨pr, hpr⟩ : ∃ pr,
            (ks'.zip vs').reverse.find? (fun p => p.1 == ks'.getD j' "") = some pr := by
          cases hfind : (ks'.zip vs').reverse.find? (fun p => p.1 == ks'.getD j' "") with
          | none =>
            rw [hfind] at hih
            simp at hih
          | some pr => exact ⟨pr, rfl⟩
        rw [hpr, Option.or_some]
        rw [hpr] at hih
        simp only [List.getElem?_cons_succ]
        rw [hw]
        exact hih

theorem selected_labels_nodup (cols : List String) (hnd : cols.Nodup)
    (h : 10 < cols.length) :
    (renamePositions.map (fun i => cols.getD i "")).Nodup := by
  apply List.Nodup.map_on
  · intro x hx y hy hxy
    have hx10 : x ≤ 10 := by
      revert hx
      simp [renamePositions]
      omega
    have hy10 : y ≤ 10 := by
      revert hy
      simp [renamePositions]
      omega
    have hxl : x < cols.length := by omega
    have hyl : y < cols.length := by omega
    rw [getD_of_lt cols x "" hxl, getD_of_lt cols y "" hyl] at hxy
    exact List.getElem?_inj hxl hnd
      (by rw [List.getElem?_eq_getElem hxl, List.getElem?_eq_getElem hyl, hxy])
  · decide


/-- C7 counterexample: with eight labels supplied, the call renames
positions 4 and 7 but leaves positions 5 and 6 unchanged, so the renamed
subset is not one contiguous index range (the function takes no range
argument; positions 1,2,3,4,7,8,9,10 are hard-coded). -/
theorem change_column_titles_gap_counterexample :
    change_column_titles
      ["ref", "c1", "c2", "c3", "c4", "x5", "ref2", "c7", "c8", "c9", "c10"]
      ["A", "C", "G", "T", "A2", "C2", "G2", "T2"] =
      some ["ref", "A", "C", "G", "T", "x5", "ref2", "A2", "C2", "G2", "T2"] ∧
    (["ref", "A", "C", "G", "T", "x5", "ref2", "A2", "C2", "G2", "T2"] :
        List String)[4]? ≠
      (["ref", "c1", "c2", "c3", "c4", "x5", "ref2", "c7", "c8", "c9", "c10"] :
        List String)[4]? ∧
    (["ref", "A", "C", "G", "T", "x5", "ref2", "A2", "C2", "G2", "T2"] :
        List String)[5]? =
      (["ref", "c1", "c2", "c3", "c4", "x5", "ref2", "c7", "c8", "c9", "c10"] :
        List String)[5]? ∧
    (["ref", "A", "C", "G", "T", "x5", "ref2", "A2", "C2", "G2", "T2"] :
        List String)[6]? =
      (["ref", "c1", "c2", "c3", "c4", "x5", "ref2", "c7", "c8", "c9", "c10"] :
        List String)[6]? ∧
    (["ref", "A", "C", "G", "T", "x5", "ref2", "A2", "C2", "G2", "T2"] :
        List String)[7]? ≠
      (["ref", "c1", "c2", "c3", "c4", "x5", "ref2", "c7", "c8", "c9", "c10"] :
        List String)[7]? := by
  decide

/-- C7 (amended): `change_column_titles` takes no index range; it renames
exactly the columns at the fixed positions 1,2,3,4,7,8,9,10 (two
contiguous blocks) to the supplied base symbols in order — 1:1 and
order-preserving when the original labels are distinct and eight labels
are supplied — leaving every other column label unchanged. -/
theorem change_column_titles_renames_fixed_positions
    (cols base_order : List String) (hnd : cols.Nodup)
    (hlen : 10 < cols.length) (hbo : base_order.length = 8) :
    ∃ out, change_column_titles cols base_order = some out ∧
      out.length = cols.length ∧
      (∀ j, j < 8 → out[renamePositions.getD j 0]? = base_order[j]?) ∧
      (∀ i, i ∉ renamePositions → out[i]? = cols[i]?) := by
  have hall10 : ∀ x ∈ renamePositions, x ≤ 10 := by decide
  set sel := renamePositions.map (fun i => cols.getD i "") with hsel
  set f := fun c => (pyDictLookup (sel.zip base_order) c).getD c with hf
  refine ⟨cols.map f, ?_, by simp, ?_, ?_⟩
  · rw [change_column_titles, selectPositions, if_pos hlen]
    rfl
  · intro j hj
    have hjr : j < renamePositions.length := by
      simp only [renamePositions, List.length_cons, List.length_nil]
      omega
    have hpmem : renamePositions.getD j 0 ∈ renamePositions := by
      rw [getD_of_lt _ j 0 hjr]
      exact List.getElem_mem hjr
    have hp10 : renamePositions.getD j 0 ≤ 10 := hall10 _ hpmem
    have hpl : renamePositions.getD j 0 < cols.length := by omega
    have hkey : cols.getD (renamePositions.getD j 0) "" = sel.getD j "" := by
      rw [hsel]
      rw [getD_of_lt (renamePositions.map (fun i => cols.getD i "")) j ""
        (by rw [List.length_map]; exact hjr)]
      rw [List.getElem_map]
      rw [getD_of_lt renamePositions j 0 hjr]
    have hsellen : sel.length = 8 := by
      rw [hsel, List.length_map]
      rfl
    have hlook : pyDictLookup (sel.zip base_order) (sel.getD j "") =
        base_order[j]? :=
      pyDictLookup_zip_nodup sel base_order j
        (selected_labels_nodup cols hnd hlen) (by omega) (by omega)
    have hbj : base_order[j]? = some base_order[j] :=
      List.getElem?_eq_getElem (by omega)
    rw [List.getElem?_map, List.getElem?_eq_getElem hpl]
    simp only [Option.map_some', hf]
    rw [← getD_of_lt cols _ "" hpl, hkey, hlook, hbj]
    rfl
  · intro i hi
    rcases Nat.lt_or_ge i cols.length with hil | hil
    · rw [List.getElem?_map, List.getElem?_eq_getElem hil]
      simp only [Option.map_some', hf]
      have hnone : pyDictLookup (sel.zip base_order) cols[i] = none := by
        apply pyDictLookup_eq_none
        intro pr hpr
        obtain ⟨a, b⟩ := pr
        have ha : a ∈ sel := (List.of_mem_zip hpr).1
        rw [hsel] at ha
        obtain ⟨pz, hpz, hpeq⟩ := List.mem_map.mp ha
        have hpz10 : pz ≤ 10 := hall10 pz hpz
        have hpzl : pz < cols.length := by omega
        show a ≠ cols[i]
        intro heq
        rw [← hpeq, getD_of_lt _ _ _ hpzl] at heq
        have hpi : pz = i := List.getElem?_inj hpzl hnd
          (by rw [List.getElem?_eq_getElem hpzl, List.getElem?_eq_getElem hil,
            heq])
        exact hi (hpi ▸ hpz)
      rw [hnone]
      rfl
    · have h1 : (cols.map f)[i]? = none := by
        rw [List.getElem?_eq_none]
        simpa using hil
      have h2 : cols[i]? = none := by
        rw [List.getElem?_eq_none]
        exact hil
      rw [h1, h2]

/-- Witness for the amended C7 on an 11-column table with distinct labels
and eight base symbols. -/
theorem change_column_titles_renames_fixed_positions_witness :
    ∃ out, change_column_titles
      ["ref", "c1", "c2", "c3", "c4", "x5", "ref2", "c7", "c8", "c9", "c10"]
      ["A", "C", "G", "T", "A'", "C'", "G'", "T'"] = some out ∧
      out.length = 11 ∧
      (∀ j, j < 8 → out[renamePositions.getD j 0]? =
        (["A", "C", "G", "T", "A'", "C'", "G'", "T'"] : List String)[j]?) ∧
      (∀ i, i ∉ renamePositions → out[i]? =
        (["ref", "c1", "c2", "c3", "c4", "x5", "ref2", "c7", "c8", "c9", "c10"] :
          List String)[i]?) :=
  change_column_titles_renames_fixed_positions
    ["ref", "c1", "c2", "c3", "c4", "x5", "ref2", "c7", "c8", "c9", "c10"]
    ["A", "C", "G", "T", "A'", "C'", "G'", "T'"]
    (by decide) (by decide) rfl


/-! ### The first-maximum characterization of `idxmax` -/

theorem idxmax_go_spec (ps : List (String × Rat)) :
    ∀ best : String × Rat, ∃ l₁ p l₂,
      best :: ps = l₁ ++ p :: l₂ ∧ idxmax_go best ps = p ∧
      (∀ q ∈ best :: ps, q.2 ≤ p.2) ∧ (∀ q ∈ l₁, q.2 < p.2) := by
  induction ps with
  | nil =>
    intro best
    exact ⟨[], best, [], rfl, rfl, by simp, by simp⟩
  | cons q qs ih =>
    intro best
    by_cases hlt : best.2 < q.2
    · obtain ⟨l₁, p, l₂, hsplit, hrun, hmax, hfirst⟩ := ih q
      refine ⟨best :: l₁, p, l₂, ?_, ?_, ?_, ?_⟩
      · rw [List.cons_append, ← hsplit]
      · rw [idxmax_go, if_pos hlt]
        exact hrun
      · intro x hx
        rcases List.mem_cons.mp hx with hx | hx
        · have hq : q.2 ≤ p.2 := hmax q (by simp)
          rw [hx]
          exact le_of_lt (lt_of_lt_of_le hlt hq)
        · exact hmax x hx
      · intro x hx
        rcases List.mem_cons.mp hx with hx | hx
        · rw [hx]
          exact lt_of_lt_of_le hlt (hmax q (by simp))
        · exact hfirst x hx
    · obtain ⟨l₁, p, l₂, hsplit, hrun, hmax, hfirst⟩ := ih best
      have hqb : q.2 ≤ best.2 := le_of_not_lt hlt
      have hbp : best.2 ≤ p.2 := hmax best (by simp)
      cases l₁ with
      | nil =>
        simp only [List.nil_append] at hsplit
        have hbestp : best = p := (List.cons.injEq _ _ _ _ ▸ hsplit).1
        refine ⟨[], p, q :: qs, by rw [← hbestp]; rfl, ?_, ?_, by simp⟩
        · rw [idxmax_go, if_neg hlt]
          exact hrun
        · intro x hx
          rcases List.mem_cons.mp hx with hx | hx
          · rw [hx, ← hbestp]
          · rcases List.mem_cons.mp hx with hx | hx
            · rw [hx]
              exact le_trans hqb hbp
            · exact hmax x (by simp [hx])
      | cons hd tl =>
        have hhd : hd = best := by
          have := congrArg (fun l => l[0]?) hsplit
          simpa using this.symm
        have htl : qs = tl ++ p :: l₂ := by
          have := congrArg List.tail hsplit
          simpa using this
        have hbestlt : best.2 < p.2 := by
          have := hfirst hd (by simp)
          rwa [hhd] at this
        refine ⟨best :: q :: tl, p, l₂, ?_, ?_, ?_, ?_⟩
        · rw [htl]
          rfl
        · rw [idxmax_go, if_neg hlt]
          exact hrun
        · intro x hx
          rcases List.mem_cons.mp hx with hx | hx
          · rw [hx]
            exact hbp
          · rcases List.mem_cons.mp hx with hx | hx
            · rw [hx]
              exact le_trans hqb hbp
            · exact hmax x (by simp [hx])
        · intro x hx
          rcases List.mem_cons.mp hx with hx | hx
          · rw [hx]
            exact hbestlt
          · rcases List.mem_cons.mp hx with hx | hx
            · rw [hx]
              exact lt_of_le_of_lt hqb hbestlt
            · exact hfirst x (List.mem_cons_of_mem hd hx)

theorem idxmax_first_max (pairs : List (String × Rat)) (h : pairs ≠ []) :
    ∃ l₁ p l₂, pairs = l₁ ++ p :: l₂ ∧ idxmax pairs = some p.1 ∧
      (∀ q ∈ pairs, q.2 ≤ p.2) ∧ (∀ q ∈ l₁, q.2 < p.2) := by
  cases pairs with
  | nil => exact absurd rfl h
  | cons a ps =>
    obtain ⟨l₁, p, l₂, hsplit, hrun, hmax, hfirst⟩ := idxmax_go_spec ps a
    exact ⟨l₁, p, l₂, hsplit, by rw [idxmax, hrun], hmax, hfirst⟩


/-! ### Success lemmas for the row loops -/

theorem mapM_asNum_of_nums :
    ∀ l : List Val, (∀ v ∈ l, (asNum v).isSome) →
      ∃ qs, l.mapM asNum = some qs ∧ qs.length = l.length := by
  intro l
  induction l with
  | nil => exact fun _ => ⟨[], rfl, rfl⟩
  | cons v vs ih =>
    intro h
    obtain ⟨q, hq⟩ := Option.isSome_iff_exists.mp (h v (by simp))
    obtain ⟨qs, hqs, hlen⟩ := ih (fun x hx => h x (by simp [hx]))
    refine ⟨q :: qs, ?_, by simp [hlen]⟩
    rw [List.mapM_cons, hq, hqs]
    rfl

theorem pySlice_length {α : Type} (s e : Nat) (l : List α) :
    (pySlice s e l).length = min e l.length - s := by
  simp [pySlice]

theorem basecall_loop_success (cols : List String) (s e : Nat) :
    ∀ (rows : List (List Val)) (acc : List String),
      (∀ r ∈ rows, (basecall_row cols s e r).isSome) →
      ∃ bs, basecall_loop cols s e rows acc = (some (acc ++ bs), acc ++ bs) ∧
        bs.length = rows.length ∧
        ∀ (i : Nat) (hi : i < rows.length),
          bs[i]? = basecall_row cols s e rows[i] := by
  intro rows
  induction rows with
  | nil =>
    intro acc _
    refine ⟨[], by simp [basecall_loop], rfl, ?_⟩
    intro i hi
    simp at hi
  | cons r rs ih =>
    intro acc h
    obtain ⟨b, hb⟩ := Option.isSome_iff_exists.mp (h r (by simp))
    obtain ⟨bs, hrun, hlen, hidx⟩ := ih (acc ++ [b]) (fun x hx => h x (by simp [hx]))
    refine ⟨b :: bs, ?_, by simp [hlen], ?_⟩
    · rw [basecall_loop, hb]
      show basecall_loop cols s e rs (acc ++ [b]) = _
      rw [hrun]
      simp
    · intro i hi
      cases i with
      | zero => simpa using hb.symm
      | succ i' =>
        simp only [List.getElem?_cons_succ, List.getElem_cons_succ]
        exact hidx i' (by simpa using hi)

theorem reference_loop_success (rc : Nat) :
    ∀ (rows : List (List Val)) (acc : List Val),
      (∀ r ∈ rows, rc < r.length) →
      ∃ rfs, reference_loop rc rows acc = (some (acc ++ rfs), acc ++ rfs) ∧
        rfs.length = rows.length ∧
        ∀ (i : Nat) (hi : i < rows.length), rfs[i]? = rows[i][rc]? := by
  intro rows
  induction rows with
  | nil =>
    intro acc _
    refine ⟨[], by simp [reference_loop], rfl, ?_⟩
    intro i hi
    simp at hi
  | cons r rs ih =>
    intro acc h
    have hr : rc < r.length := h r (by simp)
    obtain ⟨rfs, hrun, hlen, hidx⟩ := ih (acc ++ [r[rc]])
      (fun x hx => h x (by simp [hx]))
    refine ⟨r[rc] :: rfs, ?_, by simp [hlen], ?_⟩
    · rw [reference_loop, List.get?_eq_getElem?, List.getElem?_eq_getElem hr]
      show reference_loop rc rs (acc ++ [r[rc]]) = _
      rw [hrun]
      simp
    · intro i hi
      cases i with
      | zero => simp [List.getElem?_eq_getElem hr]
      | succ i' =>
        simp only [List.getElem?_cons_succ, List.getElem_cons_succ]
        exact hidx i' (by simpa using hi)


theorem basecall_row_spec (cols : List String) (s e : Nat) (row : List Val)
    (hlen : row.length = cols.length)
    (hnum : ∀ v ∈ pySlice s e row, (asNum v).isSome)
    (hne : pySlice s e row ≠ []) :
    (no_max (pySlice s e row) = true → basecall_row cols s e row = some "N") ∧
    (no_max (pySlice s e row) = false →
      ∃ qs l₁ p l₂, (pySlice s e row).mapM asNum = some qs ∧
        (pySlice s e cols).zip qs = l₁ ++ p :: l₂ ∧
        basecall_row cols s e row = some p.1 ∧
        (∀ x ∈ (pySlice s e cols).zip qs, x.2 ≤ p.2) ∧
        (∀ x ∈ l₁, x.2 < p.2)) := by
  constructor
  · intro hflat
    simp [basecall_row, hflat]
  · intro hflat
    obtain ⟨qs, hqs, hqlen⟩ := mapM_asNum_of_nums (pySlice s e row) hnum
    have hzlen : ((pySlice s e cols).zip qs).length = qs.length := by
      rw [List.length_zip, hqlen, pySlice_length, pySlice_length, hlen,
        Nat.min_self]
    have hzne : (pySlice s e cols).zip qs ≠ [] := by
      intro hcontra
      have hl := congrArg List.length hcontra
      rw [hzlen, hqlen] at hl
      simp only [List.length_nil] at hl
      exact hne (List.length_eq_zero.mp hl)
    obtain ⟨l₁, p, l₂, hsplit, hrun, hmax, hfirst⟩ := idxmax_first_max _ hzne
    refine ⟨qs, l₁, p, l₂, hqs, hsplit, ?_, hmax, hfirst⟩
    simp only [basecall_row, hflat, Bool.false_eq_true, if_false, hqs]
    exact hrun

theorem basecall_loop_some_inv (cols : List String) (s e : Nat) :
    ∀ (rows : List (List Val)) (acc res : List String),
      (basecall_loop cols s e rows acc).1 = some res →
      ∃ bs, res = acc ++ bs ∧ bs.length = rows.length ∧
        ∀ (i : Nat) (hi : i < rows.length),
          bs[i]? = basecall_row cols s e rows[i] := by
  intro rows
  induction rows with
  | nil =>
    intro acc res h
    simp only [basecall_loop, Option.some.injEq] at h
    refine ⟨[], by simp [← h], rfl, ?_⟩
    intro i hi
    simp at hi
  | cons r rs ih =>
    intro acc res h
    cases hb : basecall_row cols s e r with
    | none =>
      rw [basecall_loop, hb] at h
      simp at h
    | some b =>
      rw [basecall_loop, hb] at h
      obtain ⟨bs, hres, hlen, hidx⟩ := ih (acc ++ [b]) res h
      refine ⟨b :: bs, by simp [hres], by simp [hlen], ?_⟩
      intro i hi
      cases i with
      | zero => simpa using hb.symm
      | succ i' =>
        simp only [List.getElem?_cons_succ, List.getElem_cons_succ]
        exact hidx i' (by simpa using hi)


/-- A small concrete table used to instantiate the sequence theorems: a
reference column followed by four intensity columns, one row with a unique
maximum and one flat row. -/
def dfWitness : DataFrame :=
  ⟨["ref", "A", "C", "G", "T"],
    [[Val.sym "A", Val.num 10, Val.num 2, Val.num 3, Val.num 1],
     [Val.sym "C", Val.num 5, Val.num 5, Val.num 5, Val.num 5]]⟩

/-- C2 counterexample: for the empty column range [1, 1) the row slice is
empty, `no_max` is `false` (not flat), and `idxmax` of an empty series
raises (pandas `ValueError`), so the call emits no symbol at all for the
row instead of one symbol per row. -/
theorem basecall_sequence_empty_range_counterexample :
    basecall_sequence
      ⟨["ref", "A", "C", "G", "T"],
        [[Val.sym "A", Val.num 1, Val.num 2, Val.num 3, Val.num 4]]⟩ 1 1 =
      none ∧
    (⟨["ref", "A", "C", "G", "T"],
        [[Val.sym "A", Val.num 1, Val.num 2, Val.num 3, Val.num 4]]⟩ :
      DataFrame).rows.length = 1 := by
  decide

/-- C2 (amended to ranges whose row slices are non-empty and numeric): for
every rectangular table and column range such that each row's slice
[start, end) is non-empty and holds numeric intensities, the call emits
exactly one symbol per row — `"N"` when the slice is flat, and otherwise
the label of the column holding the maximum value, ties broken by the
first such column in column order. -/
theorem basecall_sequence_per_row (df : DataFrame) (s e : Nat)
    (hwf : ∀ r ∈ df.rows, r.length = df.cols.length)
    (hnum : ∀ r ∈ df.rows, ∀ v ∈ pySlice s e r, (asNum v).isSome)
    (hne : ∀ r ∈ df.rows, pySlice s e r ≠ []) :
    ∃ bs, basecall_sequence df s e = some bs ∧
      bs.length = df.rows.length ∧
      ∀ (i : Nat) (hi : i < df.rows.length),
        (no_max (pySlice s e df.rows[i]) = true → bs[i]? = some "N") ∧
        (no_max (pySlice s e df.rows[i]) = false →
          ∃ qs l₁ p l₂, (pySlice s e df.rows[i]).mapM asNum = some qs ∧
            (pySlice s e df.cols).zip qs = l₁ ++ p :: l₂ ∧
            bs[i]? = some p.1 ∧
            (∀ x ∈ (pySlice s e df.cols).zip qs, x.2 ≤ p.2) ∧
            (∀ x ∈ l₁, x.2 < p.2)) := by
  have hsome : ∀ r ∈ df.rows, (basecall_row df.cols s e r).isSome := by
    intro r hr
    obtain ⟨hflat, hnotflat⟩ :=
      basecall_row_spec df.cols s e r (hwf r hr) (hnum r hr) (hne r hr)
    cases hf : no_max (pySlice s e r) with
    | true => rw [hflat hf]; rfl
    | false =>
      obtain ⟨_, _, _, _, _, _, hcall, _, _⟩ := hnotflat hf
      rw [hcall]
      rfl
  obtain ⟨bs, hrun, hlen, hidx⟩ :=
    basecall_loop_success df.cols s e df.rows [] hsome
  refine ⟨bs, ?_, hlen, ?_⟩
  · rw [basecall_sequence, hrun]
    simp
  · intro i hi
    have hri : df.rows[i] ∈ df.rows := List.getElem_mem hi
    obtain ⟨hflat, hnotflat⟩ := basecall_row_spec df.cols s e df.rows[i]
      (hwf _ hri) (hnum _ hri) (hne _ hri)
    constructor
    · intro hf
      rw [hidx i hi, hflat hf]
    · intro hf
      obtain ⟨qs, l₁, p, l₂, hqs, hsplit, hcall, hmax, hfirst⟩ := hnotflat hf
      exact ⟨qs, l₁, p, l₂, hqs, hsplit, by rw [hidx i hi, hcall], hmax, hfirst⟩

/-- Witness for the amended C2 on `dfWitness` with range [1, 5): the first
row has the unique maximum in the column labelled `"A"`, the second row
is flat. -/
theorem basecall_sequence_per_row_witness :
    ∃ bs, basecall_sequence dfWitness 1 5 = some bs ∧
      bs.length = dfWitness.rows.length ∧
      ∀ (i : Nat) (hi : i < dfWitness.rows.length),
        (no_max (pySlice 1 5 dfWitness.rows[i]) = true → bs[i]? = some "N") ∧
        (no_max (pySlice 1 5 dfWitness.rows[i]) = false →
          ∃ qs l₁ p l₂, (pySlice 1 5 dfWitness.rows[i]).mapM asNum = some qs ∧
            (pySlice 1 5 dfWitness.cols).zip qs = l₁ ++ p :: l₂ ∧
            bs[i]? = some p.1 ∧
            (∀ x ∈ (pySlice 1 5 dfWitness.cols).zip qs, x.2 ≤ p.2) ∧
            (∀ x ∈ l₁, x.2 < p.2)) :=
  basecall_sequence_per_row dfWitness 1 5 (by decide) (by decide) (by decide)

/-- C4: whenever `basecall_sequence` completes on a rectangular table and
the reference column is in range, `reference_sequence` on the same table
also completes, both sequences have the table's row count as length, and
entry `i` of each is computed from row `i` of the table. -/
theorem sequences_aligned (df : DataFrame) (s e rc : Nat) (bs : List String)
    (hwf : ∀ r ∈ df.rows, r.length = df.cols.length)
    (hrc : rc < df.cols.length)
    (hbs : basecall_sequence df s e = some bs) :
    ∃ rfs, reference_sequence df rc = some rfs ∧
      bs.length = df.rows.length ∧ rfs.length = df.rows.length ∧
      ∀ (i : Nat) (hi : i < df.rows.length),
        bs[i]? = basecall_row df.cols s e df.rows[i] ∧
        rfs[i]? = df.rows[i][rc]? := by
  obtain ⟨bs', hbs', hblen, hbidx⟩ :=
    basecall_loop_some_inv df.cols s e df.rows [] bs hbs
  have hbs'' : bs = bs' := by simpa using hbs'
  obtain ⟨rfs, hrun, hrlen, hridx⟩ := reference_loop_success rc df.rows []
    (fun r hr => by rw [hwf r hr]; exact hrc)
  refine ⟨rfs, ?_, ?_, hrlen, ?_⟩
  · rw [reference_sequence, hrun]
    simp
  · rw [hbs'']
    exact hblen
  · intro i hi
    exact ⟨by rw [hbs'']; exact hbidx i hi, hridx i hi⟩

/-- Witness for C4 on `dfWitness`: the basecall for range [1, 5) is
`["A", "N"]` and the reference column 0 is aligned row by row. -/
theorem sequences_aligned_witness :
    ∃ rfs, reference_sequence dfWitness 0 = some rfs ∧
      (["A", "N"] : List String).length = dfWitness.rows.length ∧
      rfs.length = dfWitness.rows.length ∧
      ∀ (i : Nat) (hi : i < dfWitness.rows.length),
        (["A", "N"] : List String)[i]? =
          basecall_row dfWitness.cols 1 5 dfWitness.rows[i] ∧
        rfs[i]? = dfWitness.rows[i][0]? :=
  sequences_aligned dfWitness 1 5 0 ["A", "N"] (by decide) (by decide)
    (by decide)

